import Mathlib

/-!
Verification of the esphome stream-server component
(`src/components/stream_server/stream_server.cpp`).

The development shallowly embeds the component's pure core:

* `readline` — the static line framer (`StreamServerComponent::readline`),
  modelled with explicit state.  The C function keeps a `static char
  line[LINE_SIZE]` buffer together with a cursor `pos`; since the buffer is
  null-terminated at `pos` on every return, the observable state is exactly
  the list of accumulated characters `line[0..pos)`, which is how we carry it.
* the client registry (`setup`'s `onClient` callback, `cleanup`,
  `on_shutdown`) over a list of `Client` records;
* the per-client network callbacks installed by the `Client` constructor;
* the bridge loop's read phase (`read`) and write phase (`write`).

`std::partition` (used by `cleanup`) only guarantees a partition, not
stability, so `cleanup` is modelled relationally by its postcondition
`cleanupPost`.
-/

namespace StreamServer

/-- `static const int BUF_SIZE = 256;` -/
def BUF_SIZE : Nat := 256

/-- `static const int LINE_SIZE = 80;` -/
def LINE_SIZE : Nat := 80

/--
`StreamServerComponent::readline(char *buf, int len)`, embedded with the
static accumulator state passed explicitly.  The first argument is the
current contents of the static accumulator (`line[0..pos)`); the second is
the chunk `buf[0..len)`.  The result is the returned line (`none` models the
`NULL` return) together with the accumulator state after the call.  As in the
source, a `'\r'` returns immediately, abandoning the rest of the chunk.
-/
def readline : List Char → List Char → Option (List Char) × List Char
  | st, [] => (none, st)
  | st, c :: cs =>
    if c = '\n' then readline st cs
    else if c = '\r' then (some st, [])
    else if st.length < LINE_SIZE - 1 then readline (st ++ [c]) cs
    else readline st cs

/--
Feeding a byte sequence to `readline` one byte per call (every call has
`len = 1`), starting from accumulator state `st`.  Returns the list of
completed lines returned over all calls, and the final accumulator state.
-/
def feedAll : List Char → List Char → List (List Char) × List Char
  | st, [] => ([], st)
  | st, c :: cs =>
    let r := readline st [c]
    let rest := feedAll r.2 cs
    (match r.1 with
     | some l => l :: rest.1
     | none => rest.1, rest.2)

/--
Modelled from the spec: the `'\r'`-delimited decomposition of a byte
sequence.  `(crSplit s).1` is the list of segments each terminated by a
`'\r'` in `s` (in order), and `(crSplit s).2` is the trailing segment after
the last `'\r'` (the bytes not terminated by any `'\r'`).
-/
def crSplit : List Char → List (List Char) × List Char
  | [] => ([], [])
  | c :: cs =>
    let r := crSplit cs
    if c = '\r' then ([] :: r.1, r.2)
    else
      match r.1 with
      | [] => ([], c :: r.2)
      | s :: ss => ((c :: s) :: ss, r.2)

/--
Modelled from the spec: the lines the framer is specified to produce from a
list of completed segments, given that the accumulator initially holds `st`:
the first segment is appended to `st`, every later segment starts fresh;
`'\n'` bytes are removed and each line is truncated to `LINE_SIZE - 1` bytes.
-/
def linesFrom : List Char → List (List Char) → List (List Char)
  | _, [] => []
  | st, seg :: rest =>
    ((st ++ seg.filter (fun c => c != '\n')).take (LINE_SIZE - 1)) :: linesFrom [] rest

example : (feedAll [] ("abc\rdef\r".toList)).1 = [['a','b','c'], ['d','e','f']] := by decide
example : (feedAll [] ("ab\ncd".toList)).1 = [] := by decide
example : (crSplit ("ab\rcd".toList)).1 = [['a','b']] := by decide
example : readline [] ("a\rb\r".toList) = (some ['a'], []) := by rfl

/--
`StreamServerComponent::Client`: one accepted TCP peer.  `identifier` is the
remote address captured at acceptance (abstracted to a `Nat` naming the
connection handle, which also stands for the exclusively owned
`tcp_client`); `disconnected` is the liveness flag.
-/
structure Client where
  identifier : Nat
  disconnected : Bool
  deriving DecidableEq, Repr

/--
The `Client` constructor: `disconnected{false}`, identifier captured from the
connection (`client->remoteIP().toString()`).
-/
def newClient (conn : Nat) : Client :=
  { identifier := conn, disconnected := false }

/-- The three terminal network events a client's callbacks react to. -/
inductive ClientEvent where
  | onError
  | onDisconnect
  | onTimeout
  deriving DecidableEq, Repr

/--
The `onError` / `onDisconnect` / `onTimeout` callbacks registered in the
`Client` constructor: each unconditionally sets `disconnected = true`.
-/
def applyEvent (c : Client) (e : ClientEvent) : Client :=
  match e with
  | .onError => { c with disconnected := true }
  | .onDisconnect => { c with disconnected := true }
  | .onTimeout => { c with disconnected := true }

/--
The `onData` callback registered in the `Client` constructor: given the
shared receive buffer and the event payload (`none` models a null `data`
pointer), it returns the new buffer.  A zero-length or null payload is a
no-op; otherwise the bytes are inserted at the end of `recv_buf`.
-/
def onData (recv_buf : List UInt8) (data : Option (List UInt8)) : List UInt8 :=
  match data with
  | none => recv_buf
  | some payload =>
    if payload.length = 0 then recv_buf
    else recv_buf ++ payload

/--
The `onClient` callback installed by `StreamServerComponent::setup`: a null
`tcpClient` returns immediately; otherwise a fresh `Client` is pushed onto
the back of `clients_`.
-/
def onClient (clients : List Client) (tcpClient : Option Nat) : List Client :=
  match tcpClient with
  | none => clients
  | some conn => clients ++ [newClient conn]

/-- A client is kept by `cleanup`'s discriminator iff `!client->disconnected`. -/
def livePred (c : Client) : Bool := !c.disconnected

/--
Postcondition of `StreamServerComponent::cleanup`: `std::partition` reorders
`clients_` so that the live clients form a prefix and the dead ones a suffix
(the standard guarantees a partition but, unlike `std::stable_partition`, not
the relative order within each part), and `erase` then removes the dead
suffix.  `cleanupPost orig new` states that `new` is a possible value of
`clients_` after `cleanup()` ran on `orig`: for some dead suffix `dead`,
`new ++ dead` is a permutation of `orig`, every kept client is live and every
erased client is dead.
-/
def cleanupPost (orig new : List Client) : Prop :=
  ∃ dead : List Client,
    (new ++ dead).Perm orig ∧
    (∀ c ∈ new, c.disconnected = false) ∧
    (∀ c ∈ dead, c.disconnected = true)

/--
`StreamServerComponent::on_shutdown`: iterates over `clients_` issuing
`tcp_client->close(true)` on each.  The returned pair is the list of
force-closed connection handles (in iteration order) and the registry after
the call, which the loop body never mutates.
-/
def onShutdown (clients : List Client) : List Nat × List Client :=
  (clients.map (fun c => c.identifier), clients)

/--
One iteration of the read-phase `while` loop in `StreamServerComponent::read`
for a chunk `buf[0..len)` just read from the stream: `readline(buf, len)` is
called once, its non-null result is published to `readline_sensor`, and the
entire chunk is then written to every client in `clients_`.  Returns the new
accumulator state, the published line (if any), and the broadcast — the pair
of the recipient list and the bytes each recipient is sent.
-/
def processChunk (clients : List Client) (st chunk : List Char) :
    List Char × Option (List Char) × (List Client × List Char) :=
  let r := readline st chunk
  (r.2, r.1, (clients, chunk))

/--
The read phase of `StreamServerComponent::read`: the chunks the stream
yields across the `while (available)` loop are processed in order.  Returns
the final accumulator state, the per-chunk published lines, and the per-chunk
broadcasts.
-/
def readPhase (clients : List Client) :
    List Char → List (List Char) →
    List Char × List (Option (List Char)) × List (List Client × List Char)
  | st, [] => (st, [], [])
  | st, chunk :: rest =>
    let p := processChunk clients st chunk
    let r := readPhase clients p.1 rest
    (r.1, p.2.1 :: r.2.1, p.2.2 :: r.2.2)

/--
`StreamServerComponent::write`, post-2021.10 branch:
`stream_->write_array(recv_buf_); recv_buf_.clear();`.  `out` is the byte
sequence already written to the stream; the result is the stream bytes after
the call and the buffer after the call.
-/
def writePhaseModern (out recv_buf : List UInt8) : List UInt8 × List UInt8 :=
  (out ++ recv_buf, [])

/--
`StreamServerComponent::write`, pre-2021.10 branch: `while ((len =
recv_buf_.size()) > 0) { stream_->write(recv_buf_.data(), len);
recv_buf_.erase(begin, begin + len); }`.  `out` is the byte sequence already
written to the stream.
-/
def writePhaseLegacy (out recv_buf : List UInt8) : List UInt8 × List UInt8 :=
  if recv_buf.length > 0 then
    writePhaseLegacy (out ++ recv_buf.take recv_buf.length)
      (recv_buf.drop recv_buf.length)
  else (out, recv_buf)
  termination_by recv_buf.length
  decreasing_by simp_all

example : writePhaseLegacy [7] [1, 2] = ([7, 1, 2], []) := by
  rw [writePhaseLegacy, if_pos (by decide), writePhaseLegacy]
  decide
example : onShutdown [newClient 5, applyEvent (newClient 6) .onError] =
    ([5, 6], [⟨5, false⟩, ⟨6, true⟩]) := by decide

/-! ### Helper lemmas about `readline` and the read phase -/

/-- Unfolding: a `'\n'` byte is skipped by `readline`'s loop. -/
lemma readline_cons_nl (st cs : List Char) : readline st ('\n' :: cs) = readline st cs := by
  simp [readline]

/-- Unfolding: `readline` returns at a `'\r'`, resetting the accumulator. -/
lemma readline_cons_cr (st cs : List Char) : readline st ('\r' :: cs) = (some st, []) := by
  simp [readline]

/-- Unfolding: an ordinary byte is appended while capacity remains. -/
lemma readline_cons_other {c : Char} (hn : c ≠ '\n') (hr : c ≠ '\r') (st cs : List Char) :
    readline st (c :: cs) =
      if st.length < LINE_SIZE - 1 then readline (st ++ [c]) cs else readline st cs := by
  simp [readline, hn, hr]

/-- `readline` on a chunk without a `'\r'` returns `NULL`. -/
lemma readline_isSome :
    ∀ (chunk st : List Char), (readline st chunk).1.isSome = true ↔ '\r' ∈ chunk := by
  intro chunk
  induction chunk with
  | nil => intro st; simp [readline]
  | cons c cs ih =>
    intro st
    by_cases hr : c = '\r'
    · subst hr; simp [readline_cons_cr]
    · by_cases hn : c = '\n'
      · subst hn
        rw [readline_cons_nl, ih st]
        simp
      · rw [readline_cons_other hn hr]
        by_cases hlen : st.length < LINE_SIZE - 1
        · rw [if_pos hlen, ih (st ++ [c])]
          simp [Ne.symm hr]
        · rw [if_neg hlen, ih st]
          simp [Ne.symm hr]

/--
Once `readline` meets the first `'\r'` of a chunk it returns; the bytes after
that `'\r'` have no influence on the returned line or on the accumulator.
-/
lemma readline_post_irrelevant :
    ∀ (pre : List Char), '\r' ∉ pre → ∀ (st post post' : List Char),
      readline st (pre ++ '\r' :: post) = readline st (pre ++ '\r' :: post') := by
  intro pre
  induction pre with
  | nil => intro _ st post post'; simp [readline]
  | cons c cs ih =>
    intro h st post post'
    rw [List.mem_cons, not_or] at h
    obtain ⟨hc, hcs⟩ := h
    by_cases hn : c = '\n'
    · subst hn
      rw [List.cons_append, List.cons_append, readline_cons_nl, readline_cons_nl]
      exact ih hcs st post post'
    · rw [List.cons_append, List.cons_append, readline_cons_other hn (Ne.symm hc),
        readline_cons_other hn (Ne.symm hc)]
      by_cases hlen : st.length < LINE_SIZE - 1
      · rw [if_pos hlen, if_pos hlen]; exact ih hcs (st ++ [c]) post post'
      · rw [if_neg hlen, if_neg hlen]; exact ih hcs st post post'

/--
The value `readline` returns at the first `'\r'` of a chunk: the accumulator
contents followed by the non-`'\n'` bytes that preceded the `'\r'`, truncated
to `LINE_SIZE - 1` bytes; the accumulator is reset.
-/
lemma readline_cr_content :
    ∀ (pre : List Char), '\r' ∉ pre → ∀ (st post : List Char),
      st.length ≤ LINE_SIZE - 1 →
      readline st (pre ++ '\r' :: post) =
        (some ((st ++ pre.filter (fun c => c != '\n')).take (LINE_SIZE - 1)), []) := by
  intro pre
  induction pre with
  | nil =>
    intro _ st post hst
    simp [readline, List.take_of_length_le hst]
  | cons c cs ih =>
    intro h st post hst
    rw [List.mem_cons, not_or] at h
    obtain ⟨hc, hcs⟩ := h
    by_cases hn : c = '\n'
    · subst hn
      rw [List.cons_append, readline_cons_nl, ih hcs st post hst]
      simp
    · rw [List.cons_append, readline_cons_other hn (Ne.symm hc)]
      by_cases hlen : st.length < LINE_SIZE - 1
      · rw [if_pos hlen, ih hcs (st ++ [c]) post (by simpa using hlen)]
        simp [List.filter_cons, bne_iff_ne, hn]
      · rw [if_neg hlen, ih hcs st post hst]
        have hlen' : st.length = LINE_SIZE - 1 := le_antisymm hst (not_lt.mp hlen)
        have key : ∀ X : List Char, (st ++ X).take (LINE_SIZE - 1) = st := by
          intro X
          rw [List.take_append_eq_append_take, List.take_of_length_le (le_of_eq hlen'),
            hlen']
          simp
        rw [key, key]

/-- Singleton calls: `readline st [c]` classified by `c`. -/
lemma readline_single_nl (st : List Char) : readline st ['\n'] = (none, st) := by
  rw [readline_cons_nl]
  simp [readline]

/-- Singleton calls: a bare `'\r'` completes the accumulated line. -/
lemma readline_single_cr (st : List Char) : readline st ['\r'] = (some st, []) :=
  readline_cons_cr st []

/-- Singleton calls: an ordinary byte is buffered and `NULL` is returned. -/
lemma readline_single_other {c : Char} (hn : c ≠ '\n') (hr : c ≠ '\r') (st : List Char) :
    readline st [c] = (none, if st.length < LINE_SIZE - 1 then st ++ [c] else st) := by
  rw [readline_cons_other hn hr]
  by_cases hlen : st.length < LINE_SIZE - 1 <;> simp [hlen, readline]

/-- Unfolding `feedAll` when the head byte completes no line. -/
lemma feedAll_cons_none {st st2 : List Char} {c : Char} (h : readline st [c] = (none, st2))
    (cs : List Char) : feedAll st (c :: cs) = feedAll st2 cs := by
  simp [feedAll, h]

/-- Unfolding `feedAll` when the head byte completes a line. -/
lemma feedAll_cons_some {st st2 l : List Char} {c : Char}
    (h : readline st [c] = (some l, st2)) (cs : List Char) :
    feedAll st (c :: cs) = (l :: (feedAll st2 cs).1, (feedAll st2 cs).2) := by
  simp [feedAll, h]

/-- Unfolding `crSplit` at a `'\r'`. -/
lemma crSplit_cr (cs : List Char) :
    crSplit ('\r' :: cs) = ([] :: (crSplit cs).1, (crSplit cs).2) := by
  simp [crSplit]

/-- Unfolding `crSplit` at a non-`'\r'` byte with no later `'\r'`. -/
lemma crSplit_cons_nil {c : Char} {cs : List Char} (hr : c ≠ '\r')
    (h : (crSplit cs).1 = []) : crSplit (c :: cs) = ([], c :: (crSplit cs).2) := by
  simp [crSplit, hr, h]

/-- Unfolding `crSplit` at a non-`'\r'` byte with a later `'\r'`. -/
lemma crSplit_cons_cons {c : Char} {cs seg : List Char} {ss : List (List Char)}
    (hr : c ≠ '\r') (h : (crSplit cs).1 = seg :: ss) :
    crSplit (c :: cs) = ((c :: seg) :: ss, (crSplit cs).2) := by
  simp [crSplit, hr, h]

/-- With an empty accumulator, `linesFrom` is a pointwise clean-and-truncate. -/
lemma linesFrom_nil_eq_map (segs : List (List Char)) :
    linesFrom [] segs =
      segs.map (fun seg => (seg.filter (fun c => c != '\n')).take (LINE_SIZE - 1)) := by
  induction segs with
  | nil => rfl
  | cons s ss ih => simp [linesFrom, ih]

/--
Main framer invariant: feeding a byte sequence one byte per call from
accumulator state `st` returns exactly the specified lines of its completed
`'\r'`-delimited segments, the first segment continuing the accumulated
bytes.
-/
lemma feedAll_linesFrom :
    ∀ (s st : List Char), st.length ≤ LINE_SIZE - 1 →
      (feedAll st s).1 = linesFrom st (crSplit s).1 := by
  intro s
  induction s with
  | nil => intro st _; rfl
  | cons c cs ih =>
    intro st hst
    by_cases hr : c = '\r'
    · subst hr
      rw [feedAll_cons_some (readline_single_cr st) cs, crSplit_cr cs]
      simp only [linesFrom, ih [] (by simp)]
      simp [List.take_of_length_le hst]
    · by_cases hn : c = '\n'
      · subst hn
        rw [feedAll_cons_none (readline_single_nl st) cs, ih st hst]
        rcases hsplit : (crSplit cs).1 with _ | ⟨seg, ss⟩
        · rw [crSplit_cons_nil (by decide : ('\n' : Char) ≠ '\r') hsplit]
        · rw [crSplit_cons_cons (by decide : ('\n' : Char) ≠ '\r') hsplit]
          simp [linesFrom, List.filter_cons]
      · by_cases hlen : st.length < LINE_SIZE - 1
        · have hread : readline st [c] = (none, st ++ [c]) := by
            rw [readline_single_other hn hr, if_pos hlen]
          rw [feedAll_cons_none hread cs, ih (st ++ [c]) (by simpa using hlen)]
          rcases hsplit : (crSplit cs).1 with _ | ⟨seg, ss⟩
          · rw [crSplit_cons_nil hr hsplit]
            rfl
          · rw [crSplit_cons_cons hr hsplit]
            simp [linesFrom, List.filter_cons, hn, List.append_assoc]
        · have hread : readline st [c] = (none, st) := by
            rw [readline_single_other hn hr, if_neg hlen]
          rw [feedAll_cons_none hread cs, ih st hst]
          have hlen' : st.length = LINE_SIZE - 1 := le_antisymm hst (not_lt.mp hlen)
          have key : ∀ X : List Char, (st ++ X).take (LINE_SIZE - 1) = st := by
            intro X
            rw [List.take_append_eq_append_take, List.take_of_length_le (le_of_eq hlen'),
              hlen']
            simp
          rcases hsplit : (crSplit cs).1 with _ | ⟨seg, ss⟩
          · rw [crSplit_cons_nil hr hsplit]
          · rw [crSplit_cons_cons hr hsplit]
            simp only [linesFrom]
            rw [key, key]

/-- Every chunk of the read phase is broadcast, whole, to the client list. -/
lemma readPhase_broadcasts (clients : List Client) :
    ∀ (st : List Char) (chunks : List (List Char)),
      (readPhase clients st chunks).2.2 = chunks.map (fun ch => (clients, ch)) := by
  intro st chunks
  induction chunks generalizing st with
  | nil => rfl
  | cons ch rest ih => simp [readPhase, processChunk, ih]

/-! ### Helper lemmas about `cleanupPost` -/

/-- A client kept by `cleanup` was in the registry before the call. -/
lemma cleanupPost_mem_orig {orig new : List Client} (h : cleanupPost orig new)
    {c : Client} (hc : c ∈ new) : c ∈ orig := by
  obtain ⟨dead, hperm, -, -⟩ := h
  exact hperm.subset (List.mem_append_left dead hc)

/-- After `cleanup`, the registry is a permutation of the live sublist. -/
lemma cleanupPost_perm_filter {orig new : List Client} (h : cleanupPost orig new) :
    new.Perm (orig.filter livePred) := by
  obtain ⟨dead, hperm, hlive, hdead⟩ := h
  have hfil := hperm.filter livePred
  rwa [List.filter_append,
    List.filter_eq_self.mpr (fun c hc => by simp [livePred, hlive c hc]),
    List.filter_eq_nil_iff.mpr (fun c hc => by simp [livePred, hdead c hc]),
    List.append_nil] at hfil

/-- Membership in the post-`cleanup` registry is liveness in the original one. -/
lemma cleanupPost_mem_iff {orig new : List Client} (h : cleanupPost orig new)
    (c : Client) : c ∈ new ↔ (c ∈ orig ∧ c.disconnected = false) := by
  rw [(cleanupPost_perm_filter h).mem_iff, List.mem_filter]
  simp [livePred]

/-! ### The claims -/

/--
C2 counterexample: `std::partition` is not stable, so `cleanup` may keep the
live clients in an order other than their original relative order.  On the
registry `[⟨0, dead⟩, ⟨1, live⟩, ⟨2, live⟩]` the outcome `[⟨2⟩, ⟨1⟩]`
satisfies `cleanup`'s postcondition yet differs from the order-preserving
outcome `[⟨1⟩, ⟨2⟩]` the claim demands.
-/
theorem cleanup_order_cex :
    cleanupPost [⟨0, true⟩, ⟨1, false⟩, ⟨2, false⟩] [⟨2, false⟩, ⟨1, false⟩] ∧
    ([⟨2, false⟩, ⟨1, false⟩] : List Client) ≠
      ([⟨0, true⟩, ⟨1, false⟩, ⟨2, false⟩] : List Client).filter livePred :=
  ⟨⟨[⟨0, true⟩], by decide, by decide, by decide⟩, by decide⟩

/--
C2 (amended): after `cleanup()`, the registry holds exactly the clients whose
`disconnected` flag was false at call time — as a multiset, their relative
order being unspecified — and every kept client still has `disconnected =
false` (no live client's flag changes).
-/
theorem cleanup_keeps_exactly_live (orig new : List Client) (h : cleanupPost orig new) :
    new.Perm (orig.filter livePred) ∧
    (∀ c : Client, c ∈ new ↔ (c ∈ orig ∧ c.disconnected = false)) :=
  ⟨cleanupPost_perm_filter h, cleanupPost_mem_iff h⟩

/-- Witness for `cleanup_keeps_exactly_live` at a concrete registry. -/
theorem cleanup_keeps_exactly_live_witness :
    ([⟨1, false⟩] : List Client).Perm
      (([⟨0, true⟩, ⟨1, false⟩] : List Client).filter livePred) ∧
    (∀ c : Client, c ∈ ([⟨1, false⟩] : List Client) ↔
      (c ∈ ([⟨0, true⟩, ⟨1, false⟩] : List Client) ∧ c.disconnected = false)) :=
  cleanup_keeps_exactly_live [⟨0, true⟩, ⟨1, false⟩] [⟨1, false⟩]
    ⟨[⟨0, true⟩], by decide, by decide, by decide⟩

/--
C4: both branches of the write phase drain the shared receive buffer: every
byte that was in the buffer is written to the stream exactly once, appended
in buffer order after the bytes `out` already written, and the buffer is
empty afterwards.
-/
theorem write_phase_drains (out recv_buf : List UInt8) :
    writePhaseModern out recv_buf = (out ++ recv_buf, []) ∧
    writePhaseLegacy out recv_buf = (out ++ recv_buf, []) := by
  refine ⟨rfl, ?_⟩
  cases recv_buf with
  | nil => rw [writePhaseLegacy]; simp
  | cons b bs =>
    rw [writePhaseLegacy]
    simp only [List.length_cons, Nat.succ_sub_one, List.take_length, List.drop_length,
      Nat.zero_lt_succ, if_pos]
    rw [writePhaseLegacy]
    simp

/--
C6: the `disconnected` flag is monotonic.  A freshly constructed client has
`disconnected = false`; each of the on-error, on-disconnect and on-timeout
callbacks unconditionally sets it to `true`; and no operation resets it:
`onData` never touches a client, `on_shutdown` leaves the registry untouched,
and `cleanup` only keeps clients exactly as they were in the original
registry.
-/
theorem disconnected_monotonic :
    (∀ conn : Nat, (newClient conn).disconnected = false) ∧
    (∀ (c : Client) (e : ClientEvent), (applyEvent c e).disconnected = true) ∧
    (∀ clients : List Client, (onShutdown clients).2 = clients) ∧
    (∀ orig new : List Client, cleanupPost orig new →
      ∀ c ∈ new, c ∈ orig) := by
  refine ⟨fun _ => rfl, fun c e => ?_, fun _ => rfl,
    fun orig new h c hc => cleanupPost_mem_orig h hc⟩
  cases e <;> rfl

/-- Witness for `disconnected_monotonic` at concrete inputs. -/
theorem disconnected_monotonic_witness :
    (newClient 7).disconnected = false ∧
    (applyEvent ⟨7, false⟩ .onTimeout).disconnected = true ∧
    (⟨1, false⟩ : Client) ∈ ([⟨0, true⟩, ⟨1, false⟩] : List Client) :=
  ⟨disconnected_monotonic.1 7, disconnected_monotonic.2.1 ⟨7, false⟩ .onTimeout,
    disconnected_monotonic.2.2.2 [⟨0, true⟩, ⟨1, false⟩] [⟨1, false⟩]
      ⟨[⟨0, true⟩], by decide, by decide, by decide⟩ ⟨1, false⟩ (by decide)⟩

/--
C7: the on-data callback is a no-op on a zero-length or null payload, and
otherwise appends the payload bytes verbatim, in order, to the end of the
shared receive buffer, leaving the existing contents unchanged.
-/
theorem on_data_append (recv_buf : List UInt8) :
    onData recv_buf none = recv_buf ∧
    onData recv_buf (some []) = recv_buf ∧
    (∀ payload : List UInt8, payload ≠ [] →
      onData recv_buf (some payload) = recv_buf ++ payload) := by
  refine ⟨rfl, rfl, fun payload hp => ?_⟩
  simp [onData, List.length_eq_zero, hp]

/-- Witness for `on_data_append` at a concrete buffer and payload. -/
theorem on_data_append_witness :
    onData [1] none = [1] ∧ onData [1] (some []) = [1] ∧
    onData [1] (some [2, 3]) = [1, 2, 3] :=
  ⟨(on_data_append [1]).1, (on_data_append [1]).2.1,
    (on_data_append [1]).2.2 [2, 3] (by decide)⟩

/--
C8: the connection-accepted callback leaves the registry unchanged on a null
connection handle, and otherwise appends exactly one new client to the end of
the registry.
-/
theorem admit_guard (clients : List Client) :
    onClient clients none = clients ∧
    (∀ conn : Nat,
      onClient clients (some conn) = clients ++ [newClient conn] ∧
      (onClient clients (some conn)).length = clients.length + 1) := by
  exact ⟨rfl, fun conn => ⟨rfl, by simp [onClient]⟩⟩

/--
C10: `on_shutdown` force-closes each client's underlying connection (the
close list is exactly the clients' connection handles, in registry order)
but leaves the registry itself unchanged: same clients, same order, same
identifiers, same `disconnected` flags.
-/
theorem shutdown_preserves_registry (clients : List Client) :
    (onShutdown clients).2 = clients ∧
    (onShutdown clients).1 = clients.map (fun c => c.identifier) :=
  ⟨rfl, rfl⟩

/--
C5: during a tick, every chunk of the read phase is broadcast to exactly the
registry left by that tick's cleanup phase, and that registry comprises
exactly the clients whose `disconnected` flag was false at the start of the
cleanup phase.
-/
theorem broadcast_reaches_live (orig new : List Client) (st : List Char)
    (chunks : List (List Char)) (h : cleanupPost orig new) :
    (readPhase new st chunks).2.2 = chunks.map (fun ch => (new, ch)) ∧
    (∀ c : Client, c ∈ new ↔ (c ∈ orig ∧ c.disconnected = false)) :=
  ⟨readPhase_broadcasts new st chunks, cleanupPost_mem_iff h⟩

/-- Witness for `broadcast_reaches_live` at a concrete tick. -/
theorem broadcast_reaches_live_witness :
    (readPhase [⟨1, false⟩] [] [['a']]).2.2 =
      ([['a']] : List (List Char)).map (fun ch => ([⟨1, false⟩], ch)) ∧
    (∀ c : Client, c ∈ ([⟨1, false⟩] : List Client) ↔
      (c ∈ ([⟨1, false⟩, ⟨2, true⟩] : List Client) ∧ c.disconnected = false)) :=
  broadcast_reaches_live [⟨1, false⟩, ⟨2, true⟩] [⟨1, false⟩] [] [['a']]
    ⟨[⟨2, true⟩], by decide, by decide, by decide⟩

/--
C9: within a read-phase chunk, the bytes after the first `'\r'` never reach
the line accumulator and appear in no returned line — `readline`'s result
(line and accumulator alike) is independent of them — yet the entire chunk,
those bytes included, is still broadcast to the clients.
-/
theorem bytes_after_cr_skipped (st pre post post' : List Char) (clients : List Client)
    (h : '\r' ∉ pre) :
    readline st (pre ++ '\r' :: post) = readline st (pre ++ '\r' :: post') ∧
    (processChunk clients st (pre ++ '\r' :: post)).2.2 =
      (clients, pre ++ '\r' :: post) :=
  ⟨readline_post_irrelevant pre h st post post', rfl⟩

/-- Witness for `bytes_after_cr_skipped` at a concrete chunk. -/
theorem bytes_after_cr_skipped_witness :
    readline [] (['a'] ++ '\r' :: ['b']) = readline [] (['a'] ++ '\r' :: ['z']) ∧
    (processChunk [⟨1, false⟩] [] (['a'] ++ '\r' :: ['b'])).2.2 =
      ([⟨1, false⟩], ['a'] ++ '\r' :: ['b']) :=
  bytes_after_cr_skipped [] ['a'] ['b'] ['z'] [⟨1, false⟩] (by decide)

/--
C3 counterexample: a single chunk holding two `'\r'` terminators yields one
published line, not two — `read` calls `readline` once per chunk and
`readline` returns at the first `'\r'`, so the line `"b"` is lost.
-/
theorem read_publishes_once_cex :
    (['a', '\r', 'b', '\r'] : List Char).count '\r' = 2 ∧
    (readPhase [⟨1, false⟩] [] [['a', '\r', 'b', '\r']]).2.1.filterMap id = [['a']] := by
  decide

/--
C3 (amended): within each chunk, the bytes up to the chunk's first `'\r'`
are fed to the framer and exactly one completed line — the one the first
`'\r'` terminates — is published; a chunk publishes a line iff it contains a
`'\r'`, regardless of how many it contains.
-/
theorem read_publishes_first_line (st pre post : List Char) (clients : List Client)
    (h : '\r' ∉ pre) (hst : st.length ≤ LINE_SIZE - 1) :
    (processChunk clients st (pre ++ '\r' :: post)).2.1 =
      some ((st ++ pre.filter (fun c => c != '\n')).take (LINE_SIZE - 1)) ∧
    (∀ chunk st2 : List Char, ((readline st2 chunk).1.isSome = true ↔ '\r' ∈ chunk)) := by
  constructor
  · show (readline st (pre ++ '\r' :: post)).1 = _
    rw [readline_cr_content pre h st post hst]
  · intro chunk st2
    exact readline_isSome chunk st2

/-- Witness for `read_publishes_first_line` at a concrete chunk. -/
theorem read_publishes_first_line_witness :
    (processChunk [⟨1, false⟩] [] (['a'] ++ '\r' :: ['b'])).2.1 =
      some (([] ++ (['a'] : List Char).filter (fun c => c != '\n')).take (LINE_SIZE - 1)) ∧
    (∀ chunk st2 : List Char, ((readline st2 chunk).1.isSome = true ↔ '\r' ∈ chunk)) :=
  read_publishes_first_line [] ['a'] ['b'] [⟨1, false⟩] (by decide) (by decide)

/--
C1: feeding any byte sequence to the framer one byte per call, from a fresh
accumulator, returns exactly the `'\r'`-delimited completed segments of the
input, each with its `'\n'` bytes removed and truncated to its first
`LINE_SIZE - 1 = 79` bytes; and a single-byte call whose byte is not `'\r'`
completes no line.
-/
theorem framer_byte_by_byte (s : List Char) :
    (feedAll [] s).1 =
      (crSplit s).1.map (fun seg => (seg.filter (fun c => c != '\n')).take (LINE_SIZE - 1)) ∧
    (∀ (st : List Char) (c : Char), ¬c = '\r' → (readline st [c]).1 = none) := by
  constructor
  · rw [feedAll_linesFrom s [] (by simp), linesFrom_nil_eq_map]
  · intro st c hr
    by_cases hn : c = '\n'
    · subst hn; rw [readline_single_nl]
    · rw [readline_single_other hn hr]

/-- Witness for `framer_byte_by_byte` on the input `"ab\nc\rd"`. -/
theorem framer_byte_by_byte_witness :
    (feedAll [] ['a', 'b', '\n', 'c', '\r', 'd']).1 =
      (crSplit ['a', 'b', '\n', 'c', '\r', 'd']).1.map
        (fun seg => (seg.filter (fun c => c != '\n')).take (LINE_SIZE - 1)) ∧
    (readline ['a'] ['x']).1 = none :=
  ⟨(framer_byte_by_byte ['a', 'b', '\n', 'c', '\r', 'd']).1,
    (framer_byte_by_byte []).2 ['a'] 'x' (by decide)⟩

end StreamServer
